import Mathlib

/-!
Shallow embedding of the `tools/arr-sync` reconciliation engine
(`state.py`, `diff.py`, `arr_sync.py`) and proofs of the specified
properties of its state-resolution, diffing and plan-execution logic.

Python dicts are modelled as association lists with unique keys
(`Dict`), JSON scalar values as `Val`, and deferred apply closures as
tagged `ApplyOp` values carrying the data the closure captures at plan
time.  Live API snapshots are passed in explicitly, mirroring the way
each planning function performs its fetches before the pure comparison.
-/

namespace ArrSync

/-- Value appearing in a provider field list or a config mapping:
a JSON-ish scalar (string, boolean, integer or null). -/
inductive Val where
  | s (v : String)
  | b (v : Bool)
  | i (v : Int)
  | null
deriving DecidableEq, Repr

/-- Python dict with string keys, modelled as an association list with
unique keys (insertion order preserved, as in CPython dicts). -/
abbrev Dict := List (String × Val)

/-- Python `d.get(k)` (returns `None` when the key is absent). -/
def dictGet (d : Dict) (k : String) : Val :=
  match d.find? (fun p => p.1 == k) with
  | some p => p.2
  | none => .null

/-- Python `d.get(k, default)`. -/
def dictGetD (d : Dict) (k : String) (default : Val) : Val :=
  match d.find? (fun p => p.1 == k) with
  | some p => p.2
  | none => default

/-- Python `k in d` key-membership test. -/
def dictHas (d : Dict) (k : String) : Bool :=
  d.any (fun p => p.1 == k)

/-- Python `d[k] = v` dict assignment: overwrite in place when the key
exists, otherwise append at the end (CPython insertion order). -/
def dictSet (d : Dict) (k : String) (v : Val) : Dict :=
  if d.any (fun p => p.1 == k) then
    d.map (fun p => if p.1 == k then (k, v) else p)
  else
    d ++ [(k, v)]

/-- Python `==` between a field value and a desired string (comparison
with `None` or a non-string value is `False`). -/
def valEqS (v : Val) (x : String) : Bool :=
  match v with
  | .s y => y == x
  | _ => false

/-- Python `==` between a field value and a desired boolean
(`True == 1` and `False == 0` hold in Python, so integer values 0/1
compare equal to the corresponding booleans). -/
def valEqB (v : Val) (x : Bool) : Bool :=
  match v with
  | .b y => y == x
  | .i y => (if x then y == 1 else y == 0)
  | _ => false

/-! ## Desired-state data model (`state.py`) -/

/-- Seedr cloud-download credentials (`SeedrConfig` dataclass). -/
structure SeedrConfig where
  email : String
  password : String
  download_directory : String := "/downloads"
  delete_from_cloud : Bool := true
deriving DecidableEq, Repr

/-- One Radarr/Sonarr instance's connection info and declared overrides
(`ServiceConfig` dataclass). -/
structure ServiceConfig where
  url : String
  api_key : String
  container : String := ""
  root_folders : List String := []
  naming : Dict := []
  media_management : Dict := []
deriving DecidableEq, Repr

/-- One declared tenant (`UserState` dataclass). -/
structure UserState where
  name : String
  seedr : Option SeedrConfig := none
  radarr : Option ServiceConfig := none
  sonarr : Option ServiceConfig := none
  overseerr_url : String := ""
  is_reference : Bool := false
  reference : String := ""
deriving DecidableEq, Repr

/-- The `users` mapping of a `DesiredState`: an insertion-ordered dict
from username to tenant state. -/
abbrev Users := List (String × UserState)

/-- Python `state.users.get(name)`: first entry with the given key
(keys are unique in a dict, so first match is the entry). -/
def usersGet (store : Users) (name : String) : Option UserState :=
  (store.find? (fun p => p.1 == name)).map (fun p => p.2)

/-! ## Actions and deferred apply operations (`diff.py`) -/

/-- Kind of a planned change (`ActionType` enum). -/
inductive ActionType where
  | CREATE
  | UPDATE
  | NOOP
  | WARNING
deriving DecidableEq, Repr

/-- Download-client payload built by `_build_seedr_payload`; the
provider `fields` list is modelled as name/value pairs. -/
structure DCPayload where
  name : String
  impl : String
  configContract : String
  enable : Bool
  protocol : String
  priority : Int
  removeCompletedDownloads : Bool
  removeFailedDownloads : Bool
  fields : Dict
deriving DecidableEq, Repr

/-- Custom format as returned by the API: id, name, and the remaining
payload key/values. -/
structure CustomFormat where
  id : Int
  name : String
  data : Dict := []
deriving DecidableEq, Repr

/-- Quality profile as returned by the API: id, name, and the remaining
payload key/values (internal fields the planner never inspects). -/
structure QualityProfile where
  id : Int
  name : String
  data : Dict := []
deriving DecidableEq, Repr

/-- Quality definition entry: the three compared size fields plus the
rest of the payload. -/
structure QualityDef where
  minSize : Val := .null
  maxSize : Val := .null
  preferredSize : Val := .null
  data : Dict := []
deriving DecidableEq, Repr

/-- Download client as returned by the API. -/
structure DownloadClient where
  id : Int
  impl : String
  fields : Dict := []
deriving DecidableEq, Repr

/-- Prowlarr application registration as returned by the API. -/
structure AppReg where
  id : Int
  name : String
  fields : Dict := []
deriving DecidableEq, Repr

/-- Deferred apply operation: the tagged payload a planning function's
apply closure captures at plan-build time.  Running one corresponds to
calling the closure (`action.execute()`). -/
inductive ApplyOp where
  | createDownloadClient (payload : DCPayload)
  | updateDownloadClient (id : Int) (payload : DCPayload)
  | createRootFolder (path : String)
  | syncCustomFormats (refCfs : List CustomFormat)
  | syncQualityProfiles (refProfiles : List QualityProfile) (cfIdMap : List (Int × Int))
  | updateQualityDefinitions (defs : List QualityDef)
  | updateNamingConfig (cfg : Dict)
  | updateMediaManagement (cfg : Dict)
  | createApplication (name impl prowlarrUrl url apiKey : String)
  | updateApplication (id : Int) (name impl prowlarrUrl url apiKey : String)
  | applyRecyclarr
deriving DecidableEq, Repr

/-- One planned change (`Action` dataclass).  The `children` field of
the source is never populated by any planner and is omitted. -/
structure Action where
  type : ActionType
  category : String
  name : String
  detail : String := ""
  execute : Option ApplyOp := none
deriving DecidableEq, Repr

/-! ## Download-client differencer (`plan_download_client`) -/

/-- Mirrors `_get_field_value`: first field with the given name, else
`None`. -/
def getFieldValue (fields : Dict) (name : String) : Val :=
  match fields.find? (fun f => f.1 == name) with
  | some f => f.2
  | none => .null

/-- Mirrors `_build_seedr_payload`. -/
def buildSeedrPayload (seedr : SeedrConfig) : DCPayload :=
  { name := "Seedr"
    impl := "Seedr"
    configContract := "SeedrSettings"
    enable := true
    protocol := "torrent"
    priority := 1
    removeCompletedDownloads := true
    removeFailedDownloads := true
    fields := [
      ("email", .s seedr.email),
      ("password", .s seedr.password),
      ("downloadDirectory", .s seedr.download_directory),
      ("deleteFromCloud", .b seedr.delete_from_cloud)] }

/-- Mirrors `_seedr_fields_match`. -/
def seedrFieldsMatch (existing : DownloadClient) (desired : SeedrConfig) : Bool :=
  valEqS (getFieldValue existing.fields "email") desired.email
    && valEqS (getFieldValue existing.fields "password") desired.password
    && valEqS (getFieldValue existing.fields "downloadDirectory") desired.download_directory
    && valEqB (getFieldValue existing.fields "deleteFromCloud") desired.delete_from_cloud

/-- Changed-field names accumulated by `_seedr_diff_detail`, in the
order the source appends them. -/
def seedrChangedFields (existing : DownloadClient) (desired : SeedrConfig) : List String :=
  (if !valEqS (getFieldValue existing.fields "email") desired.email then ["email"] else [])
    ++ (if !valEqS (getFieldValue existing.fields "password") desired.password then ["password"] else [])
    ++ (if !valEqS (getFieldValue existing.fields "downloadDirectory") desired.download_directory then
          ["downloadDirectory"] else [])
    ++ (if !valEqB (getFieldValue existing.fields "deleteFromCloud") desired.delete_from_cloud then
          ["deleteFromCloud"] else [])

/-- Mirrors `_seedr_diff_detail`. -/
def seedrDiffDetail (existing : DownloadClient) (desired : SeedrConfig) : String :=
  String.intercalate ", " (seedrChangedFields existing desired) ++ " changed"

/-- Mirrors `plan_download_client`: `existingClients` is the result of
`client.get_download_clients()`; `next(...)` is the first client with
implementation `"Seedr"`. -/
def planDownloadClient (existingClients : List DownloadClient) (seedr : SeedrConfig) : Action :=
  match existingClients.find? (fun c => c.impl == "Seedr") with
  | none =>
      { type := .CREATE
        category := "Download client"
        name := "Seedr"
        detail := "will be created"
        execute := some (.createDownloadClient (buildSeedrPayload seedr)) }
  | some existingSeedr =>
      if seedrFieldsMatch existingSeedr seedr then
        { type := .NOOP
          category := "Download client"
          name := "Seedr"
          detail := "up to date" }
      else
        { type := .UPDATE
          category := "Download client"
          name := "Seedr"
          detail := seedrDiffDetail existingSeedr seedr
          execute := some (.updateDownloadClient existingSeedr.id (buildSeedrPayload seedr)) }

/-! ## Root-folder differencer (`plan_root_folders`)

The source builds `existing_paths = {rf["path"] for rf in existing}`, a
Python set, and iterates it for the warning pass.  CPython set
iteration order is unspecified (hash- and seed-dependent), so the
embedding takes the iteration sequence `existingIter` of that set as an
input: a duplicate-free list with the same members as the fetched path
list, in whatever order the set yields them. -/

/-- NOOP action built for a desired path that is already live. -/
def rootNoopAction (path : String) : Action :=
  { type := .NOOP
    category := "Root folder"
    name := "\"" ++ path ++ "\""
    detail := "exists" }

/-- CREATE action built for a desired path that is not live. -/
def rootCreateAction (path : String) : Action :=
  { type := .CREATE
    category := "Root folder"
    name := "\"" ++ path ++ "\""
    detail := "will be created"
    execute := some (.createRootFolder path) }

/-- WARNING action built for a live path that is not declared. -/
def rootWarnAction (path : String) : Action :=
  { type := .WARNING
    category := "Root folder"
    name := "\"" ++ path ++ "\""
    detail := "exists in API but not in YAML (not removing)" }

/-- Mirrors `plan_root_folders` given the set-iteration sequence of the
live paths: first the loop over desired paths in declared order, then
the warning loop over the live-path set. -/
def planRootFolders (desiredPaths existingIter : List String) : List Action :=
  (desiredPaths.map (fun path =>
    if existingIter.contains path then rootNoopAction path
    else rootCreateAction path))
  ++ (existingIter.filterMap (fun path =>
    if desiredPaths.contains path then none
    else some (rootWarnAction path)))

/-- Relation between a fetched live path list and a valid iteration
sequence of the set built from it: same members, no duplicates. -/
def SetIter (fetched iter : List String) : Prop :=
  iter.Nodup ∧ ∀ p, p ∈ iter ↔ p ∈ fetched

/-! ## Reference sync (`plan_reference_sync`)

The source interleaves fetches and comparisons in one function; the
embedding passes the fetched snapshots in and splits the function into
its five sections (custom formats, quality profiles, quality
definitions, naming, media management), concatenated in the source's
order. -/

/-- Live snapshot of one Radarr/Sonarr instance, as fetched by the
planning functions.  `rootFolders` holds the live root-folder paths in
the set-iteration order described at `planRootFolders`. -/
structure ServiceSnapshot where
  downloadClients : List DownloadClient := []
  rootFolders : List String := []
  customFormats : List CustomFormat := []
  qualityProfiles : List QualityProfile := []
  qualityDefs : List QualityDef := []
  naming : Dict := []
  mediaManagement : Dict := []
deriving DecidableEq, Repr

/-- Python dict comprehension `{cf["name"]: cf for cf in cfs}` looked
up at `n`: the last element with that name wins (later assignments
overwrite earlier ones). -/
def lastCfByName (cfs : List CustomFormat) (n : String) : Option CustomFormat :=
  cfs.reverse.find? (fun cf => cf.name == n)

/-- Python dict comprehension `{p["name"]: p for p in profiles}` looked
up at `n` (last element with that name wins). -/
def lastProfileByName (profiles : List QualityProfile) (n : String) : Option QualityProfile :=
  profiles.reverse.find? (fun p => p.name == n)

/-- Count `cf_existing`: reference custom formats whose name is present
in the target (the loop counts every list element, so duplicates in the
reference list are counted with multiplicity). -/
def cfExistingCount (refCfs targetCfs : List CustomFormat) : Nat :=
  refCfs.countP (fun r => (lastCfByName targetCfs r.name).isSome)

/-- Count `cf_creates`: reference custom formats whose name is absent
from the target. -/
def cfCreateCount (refCfs targetCfs : List CustomFormat) : Nat :=
  refCfs.countP (fun r => (lastCfByName targetCfs r.name).isNone)

/-- The `cf_id_map` dict (reference id → target id) as assigned at
plan-build time: both branches of the custom-format section assign
`cf_id_map[ref_cf["id"]] = target_cf_names[ref_cf["name"]]["id"]` for
every reference format whose name is matched, in reference order.
Represented as the assignment list; lookups take the last assignment
for a key (`idMapLookup`). -/
def cfIdMap (refCfs targetCfs : List CustomFormat) : List (Int × Int) :=
  refCfs.filterMap (fun r => (lastCfByName targetCfs r.name).map (fun t => (r.id, t.id)))

/-- Dict lookup over an assignment list: the last assignment for the
key wins, as for a Python dict built by successive assignments. -/
def idMapLookup (m : List (Int × Int)) (k : Int) : Option Int :=
  (m.reverse.find? (fun p => p.1 == k)).map (fun p => p.2)

/-- Custom-format section of `plan_reference_sync` (the single action
it appends). -/
def cfActions (refCfs targetCfs : List CustomFormat) (refUsername : String) : List Action :=
  let creates := cfCreateCount refCfs targetCfs
  let existing := cfExistingCount refCfs targetCfs
  if 0 < creates then
    [{ type := .CREATE
       category := "Custom formats"
       name := toString creates ++ " from " ++ refUsername
       detail := toString creates ++ " to create, " ++ toString existing ++ " existing"
       execute := some (.syncCustomFormats refCfs) }]
  else
    [{ type := .NOOP
       category := "Custom formats"
       name := toString existing ++ " synced"
       detail := "from " ++ refUsername }]

/-- Quality-profile section of `plan_reference_sync` (the single
action it appends).  The deferred bundle captures the reference
profiles and the plan-time `cf_id_map`. -/
def qpActions (refProfiles targetProfiles : List QualityProfile)
    (refCfs targetCfs : List CustomFormat) (refUsername : String) : List Action :=
  let creates := refProfiles.countP (fun p => (lastProfileByName targetProfiles p.name).isNone)
  let noops := refProfiles.countP (fun p => (lastProfileByName targetProfiles p.name).isSome)
  if 0 < creates then
    [{ type := .CREATE
       category := "Quality profiles"
       name := toString creates ++ " from " ++ refUsername
       detail := toString creates ++ " to create, " ++ toString noops ++ " existing"
       execute := some (.syncQualityProfiles refProfiles (cfIdMap refCfs targetCfs)) }]
  else
    [{ type := .NOOP
       category := "Quality profiles"
       name := toString refProfiles.length ++ " synced"
       detail := "from " ++ refUsername }]

/-- Mirrors the `defs_differ` computation: lists differ when lengths
differ or some positional pair differs on min/max/preferred size. -/
def qualityDefsDiffer (refDefs targetDefs : List QualityDef) : Bool :=
  if refDefs.length == targetDefs.length then
    (refDefs.zip targetDefs).any (fun p =>
      !(p.1.minSize == p.2.minSize)
        || !(p.1.maxSize == p.2.maxSize)
        || !(p.1.preferredSize == p.2.preferredSize))
  else
    true

/-- Quality-definition section of `plan_reference_sync`. -/
def qdActions (refDefs targetDefs : List QualityDef) (refUsername : String) : List Action :=
  if qualityDefsDiffer refDefs targetDefs then
    [{ type := .UPDATE
       category := "Quality definitions"
       name := "bulk update"
       detail := "from " ++ refUsername
       execute := some (.updateQualityDefinitions refDefs) }]
  else
    [{ type := .NOOP
       category := "Quality definitions"
       name := "up to date"
       detail := "from " ++ refUsername }]

/-- Overlay loop shared by the naming and media-management sections:
for each `(yaml_key, api_key)` pair of the field map, when the YAML
override dict has `yaml_key`, assign its value at `api_key`. -/
def applyFieldMap (fieldMap : List (String × String)) (yamlDict dst : Dict) : Dict :=
  fieldMap.foldl (fun acc p =>
    if dictHas yamlDict p.1 then dictSet acc p.2 (dictGet yamlDict p.1) else acc) dst

/-- Naming override allow-list (`field_map` of the naming section). -/
def namingFieldMap : List (String × String) :=
  [("rename_movies", "renameMovies"),
   ("standard_movie_format", "standardMovieFormat"),
   ("movie_folder_format", "movieFolderFormat")]

/-- Compared naming keys (`naming_keys`). -/
def namingKeys : List String :=
  ["renameMovies", "standardMovieFormat", "movieFolderFormat",
   "renameEpisodes", "standardEpisodeFormat", "seasonFolderFormat",
   "seriesFolderFormat", "dailyEpisodeFormat", "animeEpisodeFormat"]

/-- Desired naming config: reference naming overlaid with declared
overrides (the `if yaml_naming:` guard is a no-op for an empty dict,
since an empty dict contains no keys). -/
def desiredNaming (refNaming yamlNaming : Dict) : Dict :=
  applyFieldMap namingFieldMap yamlNaming refNaming

/-- Mirrors `naming_changed`: some compared key that desired specifies
differs between desired and target. -/
def configChanged (keys : List String) (desired target : Dict) : Bool :=
  keys.any (fun k => dictHas desired k && !(dictGet desired k == dictGet target k))

/-- Naming section of `plan_reference_sync`. -/
def namingActions (refNaming targetNaming yamlNaming : Dict) (refUsername : String) : List Action :=
  let desired := desiredNaming refNaming yamlNaming
  if configChanged namingKeys desired targetNaming then
    [{ type := .UPDATE
       category := "Naming config"
       name := "will be updated"
       detail := "from " ++ refUsername
       execute := some (.updateNamingConfig
         (dictSet desired "id" (dictGetD targetNaming "id" (.i 1)))) }]
  else
    [{ type := .NOOP
       category := "Naming config"
       name := "up to date"
       detail := "from " ++ refUsername }]

/-- Media-management override allow-list (`field_map` of the
media-management section). -/
def mmFieldMap : List (String × String) :=
  [("recycle_bin", "recycleBin"),
   ("delete_empty_folders", "deleteEmptyFolders")]

/-- Compared media-management keys (`mm_keys`). -/
def mmKeys : List String :=
  ["recycleBin", "recycleBinCleanupDays", "deleteEmptyFolders",
   "autoUnmonitorPreviouslyDownloadedMovies"]

/-- Media-management section of `plan_reference_sync`. -/
def mmActions (refMM targetMM yamlMM : Dict) (refUsername : String) : List Action :=
  let desired := applyFieldMap mmFieldMap yamlMM refMM
  if configChanged mmKeys desired targetMM then
    [{ type := .UPDATE
       category := "Media management"
       name := "will be updated"
       detail := "from " ++ refUsername
       execute := some (.updateMediaManagement
         (dictSet desired "id" (dictGetD targetMM "id" (.i 1)))) }]
  else
    [{ type := .NOOP
       category := "Media management"
       name := "up to date"
       detail := "from " ++ refUsername }]

/-- Mirrors `plan_reference_sync`: the five sections' actions in source
order, computed from the two instances' snapshots and the target
service's declared overrides. -/
def planReferenceSync (target ref : ServiceSnapshot) (refUsername : String)
    (targetSvc : ServiceConfig) : List Action :=
  cfActions ref.customFormats target.customFormats refUsername
    ++ qpActions ref.qualityProfiles target.qualityProfiles
        ref.customFormats target.customFormats refUsername
    ++ qdActions ref.qualityDefs target.qualityDefs refUsername
    ++ namingActions ref.naming target.naming targetSvc.naming refUsername
    ++ mmActions ref.mediaManagement target.mediaManagement targetSvc.media_management refUsername

/-! ## Prowlarr application sync (`plan_prowlarr_apps`) -/

/-- Python dict comprehension `{a["name"]: a for a in existing_apps}`
looked up at `n` (last element with that name wins). -/
def lastAppByName (apps : List AppReg) (n : String) : Option AppReg :=
  apps.reverse.find? (fun a => a.name == n)

/-- Inner body of `plan_prowlarr_apps` for one user × one service
family (`impl` is `"Radarr"` or `"Sonarr"`): skip when the service is
absent or missing URL/API key, otherwise compare by synthesized app
name. -/
def appActionsFor (existingApps : List AppReg) (prowlarrUrl username impl : String)
    (svc : Option ServiceConfig) : List Action :=
  match svc with
  | none => []
  | some s =>
    if s.url == "" || s.api_key == "" then []
    else
      let appName := impl ++ " (" ++ username ++ ")"
      match lastAppByName existingApps appName with
      | some existing =>
          let urlMatch := valEqS (getFieldValue existing.fields "baseUrl") s.url
          let keyMatch := valEqS (getFieldValue existing.fields "apiKey") s.api_key
          if urlMatch && keyMatch then
            [{ type := .NOOP
               category := "App"
               name := "\"" ++ appName ++ "\""
               detail := "up to date" }]
          else
            [{ type := .UPDATE
               category := "App"
               name := "\"" ++ appName ++ "\""
               detail := String.intercalate ", "
                   ((if !urlMatch then ["baseUrl"] else [])
                     ++ (if !keyMatch then ["apiKey"] else [])) ++ " changed"
               execute := some (.updateApplication existing.id appName impl prowlarrUrl s.url s.api_key) }]
      | none =>
          [{ type := .CREATE
             category := "App"
             name := "\"" ++ appName ++ "\""
             detail := "will be created"
             execute := some (.createApplication appName impl prowlarrUrl s.url s.api_key) }]

/-- Mirrors `plan_prowlarr_apps`: loop over users in declared order,
then over the two service families. -/
def planProwlarrApps (existingApps : List AppReg) (prowlarrUrl : String)
    (users : Users) : List Action :=
  users.flatMap (fun p =>
    appActionsFor existingApps prowlarrUrl p.1 "Radarr" p.2.radarr
      ++ appActionsFor existingApps prowlarrUrl p.1 "Sonarr" p.2.sonarr)

/-! ## Recyclarr plan actions (`_add_recyclarr_to_plan` in
`arr_sync.py`, over the change list returned by `plan_recyclarr`) -/

/-- One change description returned by `plan_recyclarr`
(`{"type": "create" | "update", "name": entry_name}`). -/
structure RecyclarrChange where
  ctype : String
  name : String
deriving DecidableEq, Repr

/-- Actions `_add_recyclarr_to_plan` builds from the change list. -/
def recyclarrActions (changes : List RecyclarrChange) : List Action :=
  changes.map (fun c =>
    { type := if c.ctype == "create" then .CREATE else .UPDATE
      category := c.name
      name := ""
      detail := if c.ctype == "create" then "will be added" else "will be updated"
      execute := some .applyRecyclarr })

/-! ## Per-service plan assembly (`plan_service`) -/

/-- Sub-plan for one Radarr/Sonarr instance (`ServicePlan`). -/
structure ServicePlan where
  service_type : String
  url : String
  actions : List Action := []
deriving DecidableEq, Repr

/-- Mirrors `getattr(user, service_type.lower())` for the two service
types `plan_service` is called with. -/
def svcOf (user : UserState) (serviceType : String) : Option ServiceConfig :=
  if serviceType == "Radarr" then user.radarr
  else if serviceType == "Sonarr" then user.sonarr
  else none

/-- Categories of the actions emitted by `plan_reference_sync`. -/
def refSyncCategories : List String :=
  ["Custom formats", "Quality profiles", "Quality definitions",
   "Naming config", "Media management"]

/-- Download-client part of `plan_service` (`if seedr:` block). -/
def dcPartOf (snap : ServiceSnapshot) (seedr : Option SeedrConfig) : List Action :=
  match seedr with
  | some s => [planDownloadClient snap.downloadClients s]
  | none => []

/-- Root-folder part of `plan_service` (`if svc.root_folders:` block). -/
def rfPartOf (snap : ServiceSnapshot) (svc : ServiceConfig) : List Action :=
  if svc.root_folders.isEmpty then []
  else planRootFolders svc.root_folders snap.rootFolders

/-- Reference-sync part of `plan_service` (`if user.reference:` block,
after the reference user has been looked up): silently empty when the
referenced user lacks the service-family block or its URL or API key. -/
def refPartOf (fetch : String → String → ServiceSnapshot) (snap : ServiceSnapshot)
    (serviceType : String) (svc : ServiceConfig) (refName : String)
    (refUser : UserState) : List Action :=
  match svcOf refUser serviceType with
  | some refSvc =>
    if refSvc.url == "" || refSvc.api_key == "" then []
    else planReferenceSync snap (fetch refSvc.url refSvc.api_key) refName svc
  | none => []

/-- Mirrors `plan_service`.  `fetch url apiKey` stands for the live
snapshot the `ArrClient` built from those credentials would return.
Returns `none` exactly where the source would raise a `KeyError`
(`state.users[user.reference]` with a dangling reference). -/
def planService (fetch : String → String → ServiceSnapshot)
    (serviceType : String) (svc : ServiceConfig) (seedr : Option SeedrConfig)
    (user : UserState) (users : Users) : Option ServicePlan :=
  let snap := fetch svc.url svc.api_key
  if user.reference == "" then
    some { service_type := serviceType, url := svc.url,
           actions := dcPartOf snap seedr ++ rfPartOf snap svc }
  else
    match usersGet users user.reference with
    | none => none
    | some refUser =>
      some { service_type := serviceType, url := svc.url,
             actions := dcPartOf snap seedr ++ rfPartOf snap svc
               ++ refPartOf fetch snap serviceType svc user.reference refUser }

/-! ## Change plan aggregate and executor (`ChangePlan`, `apply_plan`) -/

/-- Per-user aggregate (`UserPlan`). -/
structure UserPlan where
  username : String
  services : List ServicePlan := []
deriving DecidableEq, Repr

/-- Prowlarr sub-plan (`ProwlarrPlan`). -/
structure ProwlarrPlan where
  url : String
  actions : List Action := []
deriving DecidableEq, Repr

/-- Recyclarr sub-plan (`RecyclarrPlan`). -/
structure RecyclarrPlan where
  config_path : String
  actions : List Action := []
deriving DecidableEq, Repr

/-- Full change plan (`ChangePlan`). -/
structure ChangePlan where
  prowlarr : Option ProwlarrPlan := none
  users : List UserPlan := []
  recyclarr : Option RecyclarrPlan := none
deriving DecidableEq, Repr

/-- Mirrors `ChangePlan.all_actions`: prowlarr actions, then every
user's services' actions in order, then recyclarr actions. -/
def ChangePlan.allActions (plan : ChangePlan) : List Action :=
  (match plan.prowlarr with
   | some p => p.actions
   | none => [])
  ++ plan.users.flatMap (fun u => u.services.flatMap (fun s => s.actions))
  ++ (match plan.recyclarr with
      | some r => r.actions
      | none => [])

/-- Tally loop of `ChangePlan.summary` expressed as structural
recursion over the action list it walks. -/
def countActions : List Action → Nat × Nat × Nat
  | [] => (0, 0, 0)
  | a :: rest =>
    let r := countActions rest
    match a.type with
    | .CREATE => (r.1 + 1, r.2.1, r.2.2)
    | .UPDATE => (r.1, r.2.1 + 1, r.2.2)
    | .NOOP => (r.1, r.2.1, r.2.2 + 1)
    | .WARNING => r

/-- Mirrors `ChangePlan.summary`: `(creates, updates, noops)`. -/
def ChangePlan.summary (plan : ChangePlan) : Nat × Nat × Nat :=
  countActions plan.allActions

/-- Result of the `apply_plan` loop: the two counters plus the trace
of apply operations invoked, in invocation order. -/
structure ApplyOutcome where
  applied : Nat
  errors : Nat
  invoked : List ApplyOp
deriving DecidableEq, Repr

/-- Loop body of `apply_plan` expressed as structural recursion over
the action list: actions with no apply step are skipped; each invoked
step either succeeds (counted in `applied`) or raises (caught and
counted in `errors`).  `run op = true` means the deferred call
returns normally, `false` that it raises. -/
def runPlanActions (run : ApplyOp → Bool) : List Action → ApplyOutcome
  | [] => { applied := 0, errors := 0, invoked := [] }
  | a :: rest =>
    match a.execute with
    | none => runPlanActions run rest
    | some op =>
      let r := runPlanActions run rest
      if run op then
        { applied := r.applied + 1, errors := r.errors, invoked := op :: r.invoked }
      else
        { applied := r.applied, errors := r.errors + 1, invoked := op :: r.invoked }

/-- Mirrors `apply_plan`'s return value, `errors == 0`. -/
def applyPlan (run : ApplyOp → Bool) (plan : ChangePlan) : Bool :=
  (runPlanActions run plan.allActions).errors == 0

/-- Decision made by the `apply` CLI command after displaying the plan
(`arr_sync.py`): when `creates == 0 and updates == 0` it prints
"Nothing to do." and returns without prompting or executing; otherwise
it goes on to the confirmation prompt and `apply_plan`. -/
def applyCmdProceeds (plan : ChangePlan) : Bool :=
  !(plan.summary.1 == 0 && plan.summary.2.1 == 0)

/-! ## Reference resolution (`state.py`: `_apply_reference` and the
second pass of `resolve_state`) -/

/-- Per-service-family body of `_apply_reference`: copy the naming and
media-management override dicts from the reference service only when
the target left them empty; when either side has no service block the
target is left unchanged. -/
def applyReferenceSvc (target ref : Option ServiceConfig) : Option ServiceConfig :=
  match target, ref with
  | some t, some r =>
      some { t with
        naming := if t.naming.isEmpty then r.naming else t.naming
        media_management := if t.media_management.isEmpty then r.media_management
          else t.media_management }
  | t, _ => t

/-- Mirrors `_apply_reference` over both service families. -/
def applyReference (user refUser : UserState) : UserState :=
  { user with
    radarr := applyReferenceSvc user.radarr refUser.radarr
    sonarr := applyReferenceSvc user.sonarr refUser.sonarr }

/-- In-place mutation of the dict entry for `name` (the Python loop
mutates the stored `UserState` object). -/
def updateUser (store : Users) (name : String) (u : UserState) : Users :=
  store.map (fun p => if p.1 == name then (p.1, u) else p)

/-- Second pass of `resolve_state`: iterate the usernames in document
order over the evolving store; a tenant whose `reference` names an
undefined tenant raises `ValueError`. -/
def resolveReferences : List String → Users → Except String Users
  | [], store => .ok store
  | n :: rest, store =>
    match usersGet store n with
    | none => resolveReferences rest store
    | some user =>
      if user.reference == "" then
        resolveReferences rest store
      else
        match usersGet store user.reference with
        | none => .error ("User '" ++ n ++ "' references '" ++ user.reference
            ++ "' which is not defined")
        | some refUser =>
          resolveReferences rest (updateUser store n (applyReference user refUser))

/-- The whole reference-resolution pass of `resolve_state` over the
parsed users dict.  The pass is pure configuration processing: its
signature involves no live-service snapshot, mirroring that
`resolve_state` performs no service API call. -/
def resolveStatePass (store : Users) : Except String Users :=
  resolveReferences (store.map (fun p => p.1)) store

/-! ## Theorems -/

/-- Closed form of the `apply_plan` loop: the invoked steps are exactly
the deferred steps of the plan, in plan order; `errors` counts the
failing ones and `applied` the rest. -/
theorem runPlanActions_spec (run : ApplyOp → Bool) (acts : List Action) :
    runPlanActions run acts =
      { applied := (acts.filterMap Action.execute).length
          - ((acts.filterMap Action.execute).filter (fun op => !run op)).length
        errors := ((acts.filterMap Action.execute).filter (fun op => !run op)).length
        invoked := acts.filterMap Action.execute } := by
  induction acts with
  | nil => rfl
  | cons a rest ih =>
    cases h : a.execute with
    | none =>
      simp only [runPlanActions, h, List.filterMap_cons, ih]
    | some op =>
      have hle : ((rest.filterMap Action.execute).filter (fun op => !run op)).length
          ≤ (rest.filterMap Action.execute).length :=
        List.length_filter_le _ _
      cases hro : run op with
      | true =>
        simp [runPlanActions, h, ih, List.filter_cons, hro, ApplyOutcome.mk.injEq]
        omega
      | false =>
        simp [runPlanActions, h, ih, List.filter_cons, hro, ApplyOutcome.mk.injEq]

/-- C1: `apply_plan` invokes every deferred apply step in plan order,
skips actions without one, never lets an individual failure escape
(`runPlanActions` is total and the failing step is merely counted),
reports `applied = K - F` and `errors = F` where `K` is the number of
actions with an apply step and `F` the number of failing ones, and
returns success iff `F = 0`. -/
theorem claim_C1_plan_executor (run : ApplyOp → Bool) (plan : ChangePlan) :
    (runPlanActions run plan.allActions).invoked = plan.allActions.filterMap Action.execute
    ∧ (runPlanActions run plan.allActions).applied
        = (plan.allActions.filterMap Action.execute).length
          - ((plan.allActions.filterMap Action.execute).filter (fun op => !run op)).length
    ∧ (runPlanActions run plan.allActions).errors
        = ((plan.allActions.filterMap Action.execute).filter (fun op => !run op)).length
    ∧ (runPlanActions run plan.allActions).applied + (runPlanActions run plan.allActions).errors
        = (plan.allActions.filterMap Action.execute).length
    ∧ (applyPlan run plan = true ↔
        ((plan.allActions.filterMap Action.execute).filter (fun op => !run op)).length = 0) := by
  have hle : ((plan.allActions.filterMap Action.execute).filter (fun op => !run op)).length
      ≤ (plan.allActions.filterMap Action.execute).length :=
    List.length_filter_le _ _
  rw [applyPlan, runPlanActions_spec]
  dsimp only
  refine ⟨rfl, rfl, rfl, by omega, by simp⟩

/-- Closed form of the `ChangePlan.summary` tally loop. -/
theorem countActions_spec (l : List Action) :
    countActions l = (l.countP (fun a => a.type == .CREATE),
                      l.countP (fun a => a.type == .UPDATE),
                      l.countP (fun a => a.type == .NOOP)) := by
  induction l with
  | nil => rfl
  | cons a rest ih =>
    simp only [countActions, ih, List.countP_cons]
    cases h : a.type <;> simp [h]

/-- C10: the summary tally counts exactly the CREATE, UPDATE and NOOP
actions of the plan; WARNING actions contribute to none of the three
counts, so a plan of only WARNING actions summarizes to `(0, 0, 0)` and
the `apply` command stops at "Nothing to do." without prompting or
executing (`applyCmdProceeds` is `false`). -/
theorem claim_C10_summary_ignores_warnings (plan : ChangePlan) :
    plan.summary = (plan.allActions.countP (fun a => a.type == .CREATE),
                    plan.allActions.countP (fun a => a.type == .UPDATE),
                    plan.allActions.countP (fun a => a.type == .NOOP))
    ∧ ((∀ a ∈ plan.allActions, a.type = .WARNING) →
        plan.summary = (0, 0, 0) ∧ applyCmdProceeds plan = false) := by
  have hsum := countActions_spec plan.allActions
  refine ⟨hsum, fun hall => ?_⟩
  have hz : ∀ (t : ActionType), t ≠ .WARNING →
      plan.allActions.countP (fun a => a.type == t) = 0 := by
    intro t ht
    rw [List.countP_eq_zero]
    intro a ha
    have := hall a ha
    simp [this]
    intro hc
    exact ht (hc ▸ rfl)
  have h1 : plan.summary = (0, 0, 0) := by
    rw [ChangePlan.summary, hsum]
    rw [hz .CREATE (by simp), hz .UPDATE (by simp), hz .NOOP (by simp)]
  refine ⟨h1, ?_⟩
  rw [applyCmdProceeds, h1]
  rfl

/-- C10 witness: a concrete plan holding only WARNING actions
summarizes to zero creates and updates and the apply command does not
proceed. -/
theorem claim_C10_summary_ignores_warnings_witness :
    (ChangePlan.mk
      (some (ProwlarrPlan.mk "http://p"
        [{ type := .WARNING, category := "Root folder", name := "\"/old\"",
           detail := "exists in API but not in YAML (not removing)" }]))
      [] none).summary = (0, 0, 0)
    ∧ applyCmdProceeds (ChangePlan.mk
      (some (ProwlarrPlan.mk "http://p"
        [{ type := .WARNING, category := "Root folder", name := "\"/old\"",
           detail := "exists in API but not in YAML (not removing)" }]))
      [] none) = false :=
  (claim_C10_summary_ignores_warnings _).2 (by decide)

/-- Specification-side restatement of the per-field comparison of the
download-client differencer: whether the existing client agrees with
the desired config on the named field. -/
def seedrFieldAgrees (existing : DownloadClient) (desired : SeedrConfig) : String → Bool
  | "email" => valEqS (getFieldValue existing.fields "email") desired.email
  | "password" => valEqS (getFieldValue existing.fields "password") desired.password
  | "downloadDirectory" =>
      valEqS (getFieldValue existing.fields "downloadDirectory") desired.download_directory
  | "deleteFromCloud" =>
      valEqB (getFieldValue existing.fields "deleteFromCloud") desired.delete_from_cloud
  | _ => true

/-- The stable field order of the download-client detail string. -/
def seedrFieldOrder : List String :=
  ["email", "password", "downloadDirectory", "deleteFromCloud"]

/-- The changed-field list of `_seedr_diff_detail` is exactly the
disagreeing fields, filtered from the stable field order. -/
theorem seedrChangedFields_eq_filter (c : DownloadClient) (d : SeedrConfig) :
    seedrChangedFields c d
      = seedrFieldOrder.filter (fun n => !seedrFieldAgrees c d n) := by
  cases h1 : valEqS (getFieldValue c.fields "email") d.email <;>
    cases h2 : valEqS (getFieldValue c.fields "password") d.password <;>
      cases h3 : valEqS (getFieldValue c.fields "downloadDirectory") d.download_directory <;>
        cases h4 : valEqB (getFieldValue c.fields "deleteFromCloud") d.delete_from_cloud <;>
          simp [seedrChangedFields, seedrFieldAgrees, seedrFieldOrder, h1, h2, h3, h4,
            List.filter]

/-- The match predicate holds exactly when no field disagrees. -/
theorem seedrFieldsMatch_iff (c : DownloadClient) (d : SeedrConfig) :
    seedrFieldsMatch c d = true ↔ seedrChangedFields c d = [] := by
  cases h1 : valEqS (getFieldValue c.fields "email") d.email <;>
    cases h2 : valEqS (getFieldValue c.fields "password") d.password <;>
      cases h3 : valEqS (getFieldValue c.fields "downloadDirectory") d.download_directory <;>
        cases h4 : valEqB (getFieldValue c.fields "deleteFromCloud") d.delete_from_cloud <;>
          simp [seedrChangedFields, seedrFieldsMatch, h1, h2, h3, h4]

/-- C4: the download-client differencer returns CREATE with the full
field payload when no Seedr-implementation client exists, NOOP when all
four compared fields match, and otherwise a single UPDATE whose detail
lists exactly the disagreeing fields in the stable order email,
password, downloadDirectory, deleteFromCloud; with only the password
differing the detail is "password changed". -/
theorem claim_C4_download_client_diff (existingClients : List DownloadClient)
    (seedr : SeedrConfig) :
    (existingClients.find? (fun c => c.impl == "Seedr") = none →
      planDownloadClient existingClients seedr =
        { type := .CREATE, category := "Download client", name := "Seedr",
          detail := "will be created",
          execute := some (.createDownloadClient (buildSeedrPayload seedr)) })
    ∧ (∀ c, existingClients.find? (fun c => c.impl == "Seedr") = some c →
        (seedrFieldsMatch c seedr = true →
          planDownloadClient existingClients seedr =
            { type := .NOOP, category := "Download client", name := "Seedr",
              detail := "up to date", execute := none })
        ∧ (seedrFieldsMatch c seedr = false →
            planDownloadClient existingClients seedr =
              { type := .UPDATE, category := "Download client", name := "Seedr",
                detail := String.intercalate ", "
                    (seedrFieldOrder.filter (fun n => !seedrFieldAgrees c seedr n))
                  ++ " changed",
                execute := some (.updateDownloadClient c.id (buildSeedrPayload seedr)) }
            ∧ seedrFieldOrder.filter (fun n => !seedrFieldAgrees c seedr n) ≠ []))
    ∧ planDownloadClient
        [{ id := 7, impl := "Seedr",
           fields := [("email", .s "a@x.com"), ("password", .s "p1"),
             ("downloadDirectory", .s "/dl"), ("deleteFromCloud", .b true)] }]
        { email := "a@x.com", password := "p2", download_directory := "/dl",
          delete_from_cloud := true } =
      { type := .UPDATE, category := "Download client", name := "Seedr",
        detail := "password changed",
        execute := some (.updateDownloadClient 7 (buildSeedrPayload
          { email := "a@x.com", password := "p2", download_directory := "/dl",
            delete_from_cloud := true })) } := by
  refine ⟨fun h => by simp [planDownloadClient, h], fun c hc => ⟨fun hm => ?_, fun hm => ?_⟩,
    by decide⟩
  · simp [planDownloadClient, hc, hm]
  · have hne : seedrChangedFields c seedr ≠ [] := by
      intro hnil
      rw [← seedrFieldsMatch_iff] at hnil
      rw [hnil] at hm
      exact Bool.true_eq_false.mp hm
    refine ⟨?_, ?_⟩
    · simp [planDownloadClient, hc, hm, seedrDiffDetail, seedrChangedFields_eq_filter]
    · rw [← seedrChangedFields_eq_filter]
      exact hne

/-- C4 witness: with no existing download clients the planner returns
the CREATE action with the full payload. -/
theorem claim_C4_download_client_diff_witness :
    planDownloadClient [] { email := "e", password := "p" } =
      { type := .CREATE, category := "Download client", name := "Seedr",
        detail := "will be created",
        execute := some (.createDownloadClient
          (buildSeedrPayload { email := "e", password := "p" })) } :=
  (claim_C4_download_client_diff [] { email := "e", password := "p" }).1 rfl

/-- Warning part of the root-folder planner rewritten as a filter of
the live iteration sequence. -/
theorem planRootFolders_warn_part (desiredPaths existingIter : List String) :
    existingIter.filterMap (fun path =>
        if desiredPaths.contains path then none else some (rootWarnAction path))
      = (existingIter.filter (fun p => !desiredPaths.contains p)).map rootWarnAction := by
  induction existingIter with
  | nil => rfl
  | cons p rest ih =>
    simp only [List.filterMap_cons, List.filter_cons, ih]
    by_cases h : p ∈ desiredPaths <;> simp [h]

/-- C2 counterexample: for the claim's scenario (desired
`["/movies", "/movies-4k"]`, live `{"/movies", "/old"}`) the emitted
sequence under either iteration order of the live-path set is
NOOP "/movies", CREATE "/movies-4k", WARNING "/old" — the desired-path
loop runs in declared order, so the NOOP for "/movies" precedes the
CREATE for "/movies-4k", not the claimed CREATE-first sequence. -/
theorem claim_C2_counterexample :
    planRootFolders ["/movies", "/movies-4k"] ["/movies", "/old"]
        = [rootNoopAction "/movies", rootCreateAction "/movies-4k", rootWarnAction "/old"]
    ∧ planRootFolders ["/movies", "/movies-4k"] ["/old", "/movies"]
        = [rootNoopAction "/movies", rootCreateAction "/movies-4k", rootWarnAction "/old"]
    ∧ planRootFolders ["/movies", "/movies-4k"] ["/movies", "/old"]
        ≠ [rootCreateAction "/movies-4k", rootNoopAction "/movies", rootWarnAction "/old"]
    ∧ planRootFolders ["/movies", "/movies-4k"] ["/old", "/movies"]
        ≠ [rootCreateAction "/movies-4k", rootNoopAction "/movies", rootWarnAction "/old"] := by
  decide

/-- C2 (amended): the root-folder differencer emits, first, one action
per desired path in declared order — NOOP when the path is live, CREATE
when it is not — and then one WARNING per live path not desired, in the
iteration order of the live-path set (never a delete: the only apply
operation any emitted action carries is a root-folder creation); for
the scenario desired = `["/movies", "/movies-4k"]` and live iteration
`["/movies", "/old"]` the sequence is NOOP "/movies",
CREATE "/movies-4k", WARNING "/old". -/
theorem claim_C2_root_folder_diff (desiredPaths existingIter : List String) :
    planRootFolders desiredPaths existingIter =
      (desiredPaths.map (fun p =>
        if existingIter.contains p then rootNoopAction p else rootCreateAction p))
      ++ ((existingIter.filter (fun p => !desiredPaths.contains p)).map rootWarnAction)
    ∧ (∀ a ∈ planRootFolders desiredPaths existingIter,
        a.execute = none
        ∨ ∃ p, p ∈ desiredPaths ∧ ¬ p ∈ existingIter
            ∧ a = rootCreateAction p ∧ a.execute = some (.createRootFolder p))
    ∧ planRootFolders ["/movies", "/movies-4k"] ["/movies", "/old"]
        = [rootNoopAction "/movies", rootCreateAction "/movies-4k", rootWarnAction "/old"] := by
  refine ⟨?_, ?_, by decide⟩
  · rw [planRootFolders, planRootFolders_warn_part]
  · intro a ha
    rw [planRootFolders] at ha
    rcases List.mem_append.mp ha with h | h
    · obtain ⟨p, hp, hpa⟩ := List.mem_map.mp h
      by_cases hmem : p ∈ existingIter
      · left
        have hne : a = rootNoopAction p := by
          rw [← hpa]
          simp [hmem]
        rw [hne]
        rfl
      · right
        have ha2 : a = rootCreateAction p := by
          rw [← hpa]
          simp [hmem]
        exact ⟨p, hp, hmem, ha2, by rw [ha2]; rfl⟩
    · obtain ⟨p, hp, hpa⟩ := List.mem_filterMap.mp h
      by_cases hdes : p ∈ desiredPaths
      · simp [hdes] at hpa
      · simp [hdes] at hpa
        left
        rw [← hpa]
        rfl

/-- C2 witness: the amended theorem applied to the scenario input; the
NOOP action for "/movies" carries no apply operation. -/
theorem claim_C2_root_folder_diff_witness :
    (rootNoopAction "/movies").execute = none
    ∨ ∃ p, p ∈ ["/movies", "/movies-4k"] ∧ ¬ p ∈ ["/movies", "/old"]
        ∧ rootNoopAction "/movies" = rootCreateAction p
        ∧ (rootNoopAction "/movies").execute = some (.createRootFolder p) :=
  (claim_C2_root_folder_diff ["/movies", "/movies-4k"] ["/movies", "/old"]).2.1
    (rootNoopAction "/movies") (by decide)

/-- Every action of the custom-format section carries the category
"Custom formats". -/
theorem cfActions_category (refCfs targetCfs : List CustomFormat) (ru : String) :
    ∀ a ∈ cfActions refCfs targetCfs ru, a.category = "Custom formats" := by
  intro a h
  simp only [cfActions] at h
  split at h <;> simp only [List.mem_singleton] at h <;> rw [h]

/-- Every action of the quality-profile section carries the category
"Quality profiles". -/
theorem qpActions_category (refProfiles targetProfiles : List QualityProfile)
    (refCfs targetCfs : List CustomFormat) (ru : String) :
    ∀ a ∈ qpActions refProfiles targetProfiles refCfs targetCfs ru,
      a.category = "Quality profiles" := by
  intro a h
  simp only [qpActions] at h
  split at h <;> simp only [List.mem_singleton] at h <;> rw [h]

/-- Every action of the quality-definition section carries the category
"Quality definitions". -/
theorem qdActions_category (refDefs targetDefs : List QualityDef) (ru : String) :
    ∀ a ∈ qdActions refDefs targetDefs ru, a.category = "Quality definitions" := by
  intro a h
  simp only [qdActions] at h
  split at h <;> simp only [List.mem_singleton] at h <;> rw [h]

/-- Every action of the naming section carries the category
"Naming config". -/
theorem namingActions_category (refNaming targetNaming yamlNaming : Dict) (ru : String) :
    ∀ a ∈ namingActions refNaming targetNaming yamlNaming ru,
      a.category = "Naming config" := by
  intro a h
  simp only [namingActions] at h
  split at h <;> simp only [List.mem_singleton] at h <;> rw [h]

/-- Every action of the media-management section carries the category
"Media management". -/
theorem mmActions_category (refMM targetMM yamlMM : Dict) (ru : String) :
    ∀ a ∈ mmActions refMM targetMM yamlMM ru, a.category = "Media management" := by
  intro a h
  simp only [mmActions] at h
  split at h <;> simp only [List.mem_singleton] at h <;> rw [h]

/-- A quality-profile name is missing from the target exactly when the
name-keyed dict of target profiles has no entry for it. -/
theorem lastProfileByName_eq_none_iff (profiles : List QualityProfile) (n : String) :
    lastProfileByName profiles n = none ↔ ∀ t ∈ profiles, t.name ≠ n := by
  rw [lastProfileByName, List.find?_eq_none]
  constructor
  · intro h t ht
    have := h t (List.mem_reverse.mpr ht)
    simpa using this
  · intro h t ht
    have := h t (List.mem_reverse.mp ht)
    simpa using this

/-- C5: the quality-profile portion of reference sync emits exactly one
action — one deferred CREATE bundle when at least one reference profile
name is absent from the target, and one NOOP (with no apply operation)
when every reference profile name is present; presence by name is the
only criterion. -/
theorem claim_C5_quality_profile_bundle (target ref : ServiceSnapshot)
    (refUsername : String) (targetSvc : ServiceConfig) :
    ∃ qp, (planReferenceSync target ref refUsername targetSvc).filter
              (fun a => a.category == "Quality profiles") = [qp]
      ∧ ((∃ p ∈ ref.qualityProfiles, ∀ t ∈ target.qualityProfiles, t.name ≠ p.name) →
          qp.type = .CREATE
            ∧ qp.execute = some (.syncQualityProfiles ref.qualityProfiles
                (cfIdMap ref.customFormats target.customFormats)))
      ∧ ((∀ p ∈ ref.qualityProfiles, ∃ t ∈ target.qualityProfiles, t.name = p.name) →
          qp.type = .NOOP ∧ qp.execute = none) := by
  have hfilter : (planReferenceSync target ref refUsername targetSvc).filter
      (fun a => a.category == "Quality profiles")
      = qpActions ref.qualityProfiles target.qualityProfiles
          ref.customFormats target.customFormats refUsername := by
    have h1 : (cfActions ref.customFormats target.customFormats refUsername).filter
        (fun a => a.category == "Quality profiles") = [] :=
      List.filter_eq_nil_iff.mpr (fun a ha hpred => by
        rw [cfActions_category _ _ _ a ha] at hpred
        simp at hpred)
    have h3 : (qdActions ref.qualityDefs target.qualityDefs refUsername).filter
        (fun a => a.category == "Quality profiles") = [] :=
      List.filter_eq_nil_iff.mpr (fun a ha hpred => by
        rw [qdActions_category _ _ _ a ha] at hpred
        simp at hpred)
    have h4 : (namingActions ref.naming target.naming targetSvc.naming refUsername).filter
        (fun a => a.category == "Quality profiles") = [] :=
      List.filter_eq_nil_iff.mpr (fun a ha hpred => by
        rw [namingActions_category _ _ _ _ a ha] at hpred
        simp at hpred)
    have h5 : (mmActions ref.mediaManagement target.mediaManagement
          targetSvc.media_management refUsername).filter
        (fun a => a.category == "Quality profiles") = [] :=
      List.filter_eq_nil_iff.mpr (fun a ha hpred => by
        rw [mmActions_category _ _ _ _ a ha] at hpred
        simp at hpred)
    have h2 : (qpActions ref.qualityProfiles target.qualityProfiles
          ref.customFormats target.customFormats refUsername).filter
        (fun a => a.category == "Quality profiles")
        = qpActions ref.qualityProfiles target.qualityProfiles
            ref.customFormats target.customFormats refUsername :=
      List.filter_eq_self.mpr (fun a ha => by
        rw [qpActions_category _ _ _ _ _ a ha]
        simp)
    rw [planReferenceSync, List.filter_append, List.filter_append, List.filter_append,
      List.filter_append, h1, h2, h3, h4, h5]
    simp
  have hmissing : (0 < ref.qualityProfiles.countP
      (fun p => (lastProfileByName target.qualityProfiles p.name).isNone))
      ↔ ∃ p ∈ ref.qualityProfiles, ∀ t ∈ target.qualityProfiles, t.name ≠ p.name := by
    rw [List.countP_pos_iff]
    constructor
    · rintro ⟨p, hp, hnone⟩
      refine ⟨p, hp, ?_⟩
      rw [← lastProfileByName_eq_none_iff]
      exact Option.isNone_iff_eq_none.mp hnone
    · rintro ⟨p, hp, hall⟩
      refine ⟨p, hp, ?_⟩
      rw [Option.isNone_iff_eq_none, lastProfileByName_eq_none_iff]
      exact hall
  by_cases hc : 0 < ref.qualityProfiles.countP
      (fun p => (lastProfileByName target.qualityProfiles p.name).isNone)
  · refine ⟨Action.mk .CREATE "Quality profiles"
        (toString (ref.qualityProfiles.countP
            (fun p => (lastProfileByName target.qualityProfiles p.name).isNone))
          ++ " from " ++ refUsername)
        (toString (ref.qualityProfiles.countP
            (fun p => (lastProfileByName target.qualityProfiles p.name).isNone))
          ++ " to create, "
          ++ toString (ref.qualityProfiles.countP
            (fun p => (lastProfileByName target.qualityProfiles p.name).isSome))
          ++ " existing")
        (some (.syncQualityProfiles ref.qualityProfiles
          (cfIdMap ref.customFormats target.customFormats))),
      ?_, fun _ => ⟨rfl, rfl⟩, ?_⟩
    · rw [hfilter]
      simp only [qpActions, if_pos hc]
    · intro hall
      exfalso
      obtain ⟨p, hp, hnamed⟩ := hmissing.mp hc
      obtain ⟨t, ht, hteq⟩ := hall p hp
      exact hnamed t ht hteq
  · refine ⟨Action.mk .NOOP "Quality profiles"
        (toString ref.qualityProfiles.length ++ " synced") ("from " ++ refUsername) none,
      ?_, fun hex => absurd (hmissing.mpr hex) hc, fun _ => ⟨rfl, rfl⟩⟩
    rw [hfilter]
    simp only [qpActions, if_neg hc]

/-- C5 witness: with no profiles on either side the quality-profile
portion is a single NOOP without an apply operation. -/
theorem claim_C5_quality_profile_bundle_witness :
    ∃ qp, (planReferenceSync {} {} "refuser" { url := "u", api_key := "k" }).filter
              (fun a => a.category == "Quality profiles") = [qp]
      ∧ qp.type = .NOOP ∧ qp.execute = none := by
  obtain ⟨qp, hf, _, hno⟩ :=
    claim_C5_quality_profile_bundle {} {} "refuser" { url := "u", api_key := "k" }
  have h := hno (by intro p hp; simp at hp)
  exact ⟨qp, hf, h.1, h.2⟩

/-- When some target custom format has the wanted name, the name-keyed
target dict yields a matching element of the target list. -/
theorem lastCfByName_of_exists {targetCfs : List CustomFormat} {n : String}
    (hex : ∃ t ∈ targetCfs, t.name = n) :
    ∃ t₀, lastCfByName targetCfs n = some t₀ ∧ t₀ ∈ targetCfs ∧ t₀.name = n := by
  obtain ⟨t, ht, hn⟩ := hex
  have hsome : (targetCfs.reverse.find? (fun cf => cf.name == n)).isSome := by
    rw [List.find?_isSome]
    exact ⟨t, List.mem_reverse.mpr ht, by simp [hn]⟩
  obtain ⟨t₀, ht₀⟩ := Option.isSome_iff_exists.mp hsome
  refine ⟨t₀, ht₀, List.mem_reverse.mp (List.mem_of_find?_eq_some ht₀), ?_⟩
  have := List.find?_some ht₀
  simpa using this

/-- Looking up a key of a Python dict built by successive assignments:
when a pair for the key is in the assignment list and every assignment
for that key stores the same value, the lookup returns that value. -/
theorem idMapLookup_eq_of_mem (m : List (Int × Int)) (k v : Int)
    (hmem : (k, v) ∈ m) (huniq : ∀ p ∈ m, p.1 = k → p.2 = v) :
    idMapLookup m k = some v := by
  have hsome : (m.reverse.find? (fun p => p.1 == k)).isSome := by
    rw [List.find?_isSome]
    exact ⟨(k, v), List.mem_reverse.mpr hmem, by simp⟩
  obtain ⟨p, hp⟩ := Option.isSome_iff_exists.mp hsome
  have hpmem : p ∈ m := List.mem_reverse.mp (List.mem_of_find?_eq_some hp)
  have hpk : p.1 = k := by
    have := List.find?_some hp
    simpa using this
  have hpv : p.2 = v := huniq p hpmem hpk
  rw [idMapLookup, hp]
  simp [hpv]

/-- C6: the plan-time custom-format id-remap table has an entry (the
matching target id) for every reference custom format with a same-named
target counterpart — also when zero formats are missing — and in the
zero-missing case the custom-format portion is the single NOOP that
summarizes the synced count.  Reference ids are assumed distinct, as
API ids are. -/
theorem claim_C6_cf_id_map (refCfs targetCfs : List CustomFormat) (refUsername : String) :
    ((refCfs.map (fun cf => cf.id)).Nodup →
      ∀ r ∈ refCfs, (∃ t ∈ targetCfs, t.name = r.name) →
        ∃ t, t ∈ targetCfs ∧ t.name = r.name
          ∧ idMapLookup (cfIdMap refCfs targetCfs) r.id = some t.id)
    ∧ (cfCreateCount refCfs targetCfs = 0 →
        cfActions refCfs targetCfs refUsername =
          [{ type := .NOOP, category := "Custom formats",
             name := toString (cfExistingCount refCfs targetCfs) ++ " synced",
             detail := "from " ++ refUsername, execute := none }]) := by
  constructor
  · intro hnodup r hr hex
    obtain ⟨t₀, hlast, ht₀mem, ht₀name⟩ := lastCfByName_of_exists hex
    refine ⟨t₀, ht₀mem, ht₀name, ?_⟩
    apply idMapLookup_eq_of_mem
    · exact List.mem_filterMap.mpr ⟨r, hr, by rw [hlast]; rfl⟩
    · intro p hp hpk
      obtain ⟨r', hr', hf⟩ := List.mem_filterMap.mp hp
      cases hl : lastCfByName targetCfs r'.name with
      | none =>
        rw [hl] at hf
        exact absurd hf (by simp)
      | some t' =>
        rw [hl] at hf
        have hp' : p = (r'.id, t'.id) := by simpa using hf.symm
        have hid : r'.id = r.id := by rw [hp'] at hpk; exact hpk
        have hrr : r' = r := List.inj_on_of_nodup_map hnodup hr' hr hid
        rw [hrr] at hl
        rw [hlast] at hl
        have ht' : t' = t₀ := (Option.some.inj hl).symm
        rw [hp', ht']
  · intro h
    simp only [cfActions, h, if_neg (by omega : ¬ 0 < 0)]

/-- C6 witness: one reference format whose name exists in the target —
nothing to create — still yields an id-map entry 10 → 20. -/
theorem claim_C6_cf_id_map_witness :
    ∃ t, t ∈ [CustomFormat.mk 20 "HDR" []] ∧ t.name = "HDR"
      ∧ idMapLookup (cfIdMap [CustomFormat.mk 10 "HDR" []] [CustomFormat.mk 20 "HDR" []])
          10 = some t.id :=
  (claim_C6_cf_id_map [CustomFormat.mk 10 "HDR" []] [CustomFormat.mk 20 "HDR" []] "r").1
    (by decide) (CustomFormat.mk 10 "HDR" []) (by decide) ⟨CustomFormat.mk 20 "HDR" [], by decide, rfl⟩

/-- Invariant the specification states for every produced Action:
NOOP/WARNING actions carry no apply operation, CREATE/UPDATE actions
carry one. -/
def ActionConsistent (a : Action) : Prop :=
  ((a.type = .NOOP ∨ a.type = .WARNING) → a.execute = none)
  ∧ ((a.type = .CREATE ∨ a.type = .UPDATE) → ∃ op, a.execute = some op)

/-- The download-client planner only produces consistent actions. -/
theorem planDownloadClient_consistent (ecs : List DownloadClient) (sc : SeedrConfig) :
    ActionConsistent (planDownloadClient ecs sc) := by
  cases hf : ecs.find? (fun c => c.impl == "Seedr") with
  | none =>
    simp only [planDownloadClient, hf]
    exact ⟨by rintro (h | h) <;> simp at h, fun _ => ⟨_, rfl⟩⟩
  | some c =>
    by_cases hm : seedrFieldsMatch c sc
    · simp only [planDownloadClient, hf, if_pos hm]
      exact ⟨fun _ => rfl, by rintro (h | h) <;> simp at h⟩
    · simp only [planDownloadClient, hf, if_neg hm]
      exact ⟨by rintro (h | h) <;> simp at h, fun _ => ⟨_, rfl⟩⟩

/-- The root-folder planner only produces consistent actions. -/
theorem planRootFolders_consistent (dps iter : List String) :
    ∀ a ∈ planRootFolders dps iter, ActionConsistent a := by
  intro a ha
  rw [planRootFolders] at ha
  rcases List.mem_append.mp ha with h | h
  · obtain ⟨p, _, hpa⟩ := List.mem_map.mp h
    by_cases hmem : p ∈ iter
    · simp [hmem] at hpa
      rw [← hpa]
      exact ⟨fun _ => rfl, by rintro (h2 | h2) <;> simp [rootNoopAction] at h2⟩
    · simp [hmem] at hpa
      rw [← hpa]
      exact ⟨by rintro (h2 | h2) <;> simp [rootCreateAction] at h2, fun _ => ⟨_, rfl⟩⟩
  · obtain ⟨p, _, hpa⟩ := List.mem_filterMap.mp h
    by_cases hdes : p ∈ dps
    · simp [hdes] at hpa
    · simp [hdes] at hpa
      rw [← hpa]
      exact ⟨fun _ => rfl, by rintro (h2 | h2) <;> simp [rootWarnAction] at h2⟩

/-- The reference-sync planner only produces consistent actions. -/
theorem planReferenceSync_consistent (target ref : ServiceSnapshot)
    (ru : String) (tsvc : ServiceConfig) :
    ∀ a ∈ planReferenceSync target ref ru tsvc, ActionConsistent a := by
  intro a ha
  rw [planReferenceSync] at ha
  simp only [List.mem_append] at ha
  rcases ha with ((((h | h) | h) | h) | h)
  · simp only [cfActions] at h
    split at h <;> simp only [List.mem_singleton] at h <;> rw [h]
    · exact ⟨by rintro (h2 | h2) <;> simp at h2, fun _ => ⟨_, rfl⟩⟩
    · exact ⟨fun _ => rfl, by rintro (h2 | h2) <;> simp at h2⟩
  · simp only [qpActions] at h
    split at h <;> simp only [List.mem_singleton] at h <;> rw [h]
    · exact ⟨by rintro (h2 | h2) <;> simp at h2, fun _ => ⟨_, rfl⟩⟩
    · exact ⟨fun _ => rfl, by rintro (h2 | h2) <;> simp at h2⟩
  · simp only [qdActions] at h
    split at h <;> simp only [List.mem_singleton] at h <;> rw [h]
    · exact ⟨by rintro (h2 | h2) <;> simp at h2, fun _ => ⟨_, rfl⟩⟩
    · exact ⟨fun _ => rfl, by rintro (h2 | h2) <;> simp at h2⟩
  · simp only [namingActions] at h
    split at h <;> simp only [List.mem_singleton] at h <;> rw [h]
    · exact ⟨by rintro (h2 | h2) <;> simp at h2, fun _ => ⟨_, rfl⟩⟩
    · exact ⟨fun _ => rfl, by rintro (h2 | h2) <;> simp at h2⟩
  · simp only [mmActions] at h
    split at h <;> simp only [List.mem_singleton] at h <;> rw [h]
    · exact ⟨by rintro (h2 | h2) <;> simp at h2, fun _ => ⟨_, rfl⟩⟩
    · exact ⟨fun _ => rfl, by rintro (h2 | h2) <;> simp at h2⟩

/-- The Prowlarr application planner only produces consistent
actions. -/
theorem planProwlarrApps_consistent (apps : List AppReg) (purl : String) (users : Users) :
    ∀ a ∈ planProwlarrApps apps purl users, ActionConsistent a := by
  intro a ha
  rw [planProwlarrApps] at ha
  obtain ⟨u, _, hu⟩ := List.mem_flatMap.mp ha
  have key : ∀ (impl : String) (svc : Option ServiceConfig),
      a ∈ appActionsFor apps purl u.1 impl svc → ActionConsistent a := by
    intro impl svc hmem
    rcases svc with _ | s
    · simp [appActionsFor] at hmem
    · simp only [appActionsFor] at hmem
      split at hmem
      · simp at hmem
      · split at hmem
        · split at hmem <;> simp only [List.mem_singleton] at hmem <;> rw [hmem]
          · exact ⟨fun _ => rfl, by rintro (h2 | h2) <;> simp at h2⟩
          · exact ⟨by rintro (h2 | h2) <;> simp at h2, fun _ => ⟨_, rfl⟩⟩
        · simp only [List.mem_singleton] at hmem
          rw [hmem]
          exact ⟨by rintro (h2 | h2) <;> simp at h2, fun _ => ⟨_, rfl⟩⟩
  rcases List.mem_append.mp hu with h | h
  · exact key "Radarr" u.2.radarr h
  · exact key "Sonarr" u.2.sonarr h

/-- The Recyclarr change actions are all consistent. -/
theorem recyclarrActions_consistent (changes : List RecyclarrChange) :
    ∀ a ∈ recyclarrActions changes, ActionConsistent a := by
  intro a ha
  obtain ⟨c, _, hc⟩ := List.mem_map.mp ha
  rw [← hc]
  constructor
  · rintro (h2 | h2) <;> by_cases hctype : c.ctype == "create" <;> simp [hctype] at h2
  · intro _
    exact ⟨_, rfl⟩

/-- C7: every Action produced by any planning function satisfies the
invariant: a NOOP or WARNING action carries no apply operation, and a
CREATE or UPDATE action carries exactly one. -/
theorem claim_C7_action_invariant (ecs : List DownloadClient) (sc : SeedrConfig)
    (dps iter : List String) (target ref : ServiceSnapshot) (ru : String)
    (tsvc : ServiceConfig) (apps : List AppReg) (purl : String) (users : Users)
    (changes : List RecyclarrChange) (a : Action) :
    (a = planDownloadClient ecs sc
      ∨ a ∈ planRootFolders dps iter
      ∨ a ∈ planReferenceSync target ref ru tsvc
      ∨ a ∈ planProwlarrApps apps purl users
      ∨ a ∈ recyclarrActions changes) →
    ((a.type = .NOOP ∨ a.type = .WARNING) → a.execute = none)
    ∧ ((a.type = .CREATE ∨ a.type = .UPDATE) → ∃ op, a.execute = some op) := by
  rintro (h | h | h | h | h)
  · rw [h]
    exact planDownloadClient_consistent ecs sc
  · exact planRootFolders_consistent dps iter a h
  · exact planReferenceSync_consistent target ref ru tsvc a h
  · exact planProwlarrApps_consistent apps purl users a h
  · exact recyclarrActions_consistent changes a h

/-- C7 witness: the CREATE action planned with no existing download
clients carries an apply operation. -/
theorem claim_C7_action_invariant_witness :
    ∃ op, (planDownloadClient [] { email := "e", password := "p" }).execute = some op :=
  (claim_C7_action_invariant [] { email := "e", password := "p" } [] [] {} {} ""
      { url := "", api_key := "" } [] "" [] []
      (planDownloadClient [] { email := "e", password := "p" })
      (Or.inl rfl)).2 (Or.inl rfl)

/-- The download-client planner's action always carries the category
"Download client". -/
theorem planDownloadClient_category (ecs : List DownloadClient) (sc : SeedrConfig) :
    (planDownloadClient ecs sc).category = "Download client" := by
  cases hf : ecs.find? (fun c => c.impl == "Seedr") with
  | none => simp only [planDownloadClient, hf]
  | some c =>
    by_cases hm : seedrFieldsMatch c sc <;>
      simp only [planDownloadClient, hf, hm, if_true, if_false, Bool.false_eq_true]

/-- Every root-folder action carries the category "Root folder". -/
theorem planRootFolders_category (dps iter : List String) :
    ∀ a ∈ planRootFolders dps iter, a.category = "Root folder" := by
  intro a ha
  rw [planRootFolders] at ha
  rcases List.mem_append.mp ha with h | h
  · obtain ⟨p, _, hpa⟩ := List.mem_map.mp h
    by_cases hmem : p ∈ iter <;> simp [hmem] at hpa <;> rw [← hpa] <;> rfl
  · obtain ⟨p, _, hpa⟩ := List.mem_filterMap.mp h
    by_cases hdes : p ∈ dps <;> simp [hdes] at hpa
    rw [← hpa]
    rfl

/-- Actions of the download-client and root-folder parts of a service
plan never carry a reference-sync category. -/
theorem dcRfParts_not_refSync (snap : ServiceSnapshot) (seedr : Option SeedrConfig)
    (svc : ServiceConfig) :
    ∀ a ∈ dcPartOf snap seedr ++ rfPartOf snap svc,
      ¬ a.category ∈ refSyncCategories := by
  intro a ha
  rcases List.mem_append.mp ha with h | h
  · rcases seedr with _ | s
    · simp [dcPartOf] at h
    · simp only [dcPartOf, List.mem_singleton] at h
      rw [h, planDownloadClient_category]
      decide
  · rw [rfPartOf] at h
    split at h
    · simp at h
    · rw [planRootFolders_category _ _ a h]
      decide

/-- C8: a tenant with no `reference` gets a service plan with no
reference-sync actions; a tenant whose reference resolves to a user
lacking the service-family block, or having it without URL or API key,
also gets a plan with no reference-sync actions and no error. -/
theorem claim_C8_reference_sync_gating (fetch : String → String → ServiceSnapshot)
    (serviceType : String) (svc : ServiceConfig) (seedr : Option SeedrConfig)
    (user : UserState) (users : Users) :
    (user.reference = "" →
      ∃ sp, planService fetch serviceType svc seedr user users = some sp
        ∧ ∀ a ∈ sp.actions, ¬ a.category ∈ refSyncCategories)
    ∧ (∀ refUser, user.reference ≠ "" →
        usersGet users user.reference = some refUser →
        (svcOf refUser serviceType = none
          ∨ ∃ rs, svcOf refUser serviceType = some rs ∧ (rs.url = "" ∨ rs.api_key = "")) →
        ∃ sp, planService fetch serviceType svc seedr user users = some sp
          ∧ ∀ a ∈ sp.actions, ¬ a.category ∈ refSyncCategories) := by
  constructor
  · intro h
    refine ⟨ServicePlan.mk serviceType svc.url
        (dcPartOf (fetch svc.url svc.api_key) seedr ++ rfPartOf (fetch svc.url svc.api_key) svc),
      ?_, ?_⟩
    · rw [planService, h]
      rfl
    · exact dcRfParts_not_refSync (fetch svc.url svc.api_key) seedr svc
  · intro refUser hne hget hincomplete
    have hrefPart : refPartOf fetch (fetch svc.url svc.api_key) serviceType svc
        user.reference refUser = [] := by
      rcases hincomplete with h | ⟨rs, hrs, hempty⟩
      · simp only [refPartOf, h]
      · simp only [refPartOf, hrs]
        rcases hempty with h | h <;> simp [h]
    have hbeq : (user.reference == "") = false := by
      simp [hne]
    refine ⟨ServicePlan.mk serviceType svc.url
        (dcPartOf (fetch svc.url svc.api_key) seedr ++ rfPartOf (fetch svc.url svc.api_key) svc
          ++ refPartOf fetch (fetch svc.url svc.api_key) serviceType svc user.reference refUser),
      ?_, ?_⟩
    · simp only [planService, hbeq, Bool.false_eq_true, if_false, hget]
    · intro a ha
      rw [hrefPart, List.append_nil] at ha
      exact dcRfParts_not_refSync (fetch svc.url svc.api_key) seedr svc a ha

/-- C8 witness: a tenant without a reference gets a plan whose single
download-client action is not a reference-sync action. -/
theorem claim_C8_reference_sync_gating_witness :
    ∃ sp, planService (fun _ _ => {}) "Radarr" { url := "u", api_key := "k" }
        (some { email := "e", password := "p" }) { name := "t" } [] = some sp
      ∧ ∀ a ∈ sp.actions, ¬ a.category ∈ refSyncCategories :=
  (claim_C8_reference_sync_gating (fun _ _ => {}) "Radarr" { url := "u", api_key := "k" }
      (some { email := "e", password := "p" }) { name := "t" } []).1 rfl

/-- Unfolding of `usersGet` over a cons cell. -/
theorem usersGet_cons (x : String × UserState) (l : Users) (k : String) :
    usersGet (x :: l) k = if x.1 == k then some x.2 else usersGet l k := by
  rw [usersGet, List.find?_cons]
  by_cases h : x.1 == k <;> simp [h, usersGet]

/-- Updating one user's entry leaves every other key's lookup
unchanged. -/
theorem usersGet_updateUser_ne (store : Users) (n k : String) (u : UserState)
    (h : k ≠ n) :
    usersGet (updateUser store n u) k = usersGet store k := by
  induction store with
  | nil => rfl
  | cons p rest ih =>
    rw [updateUser, List.map_cons, usersGet_cons, usersGet_cons]
    rw [show updateUser rest n u = rest.map (fun p => if p.1 == n then (p.1, u) else p)
      from rfl] at ih
    by_cases hpn : p.1 = n
    · have h1 : ((if (p.1 == n) = true then (p.1, u) else p).1 == k) = false := by
        simp [hpn, Ne.symm h]
      have h2 : (p.1 == k) = false := by simp [hpn, Ne.symm h]
      rw [h1, h2]
      simpa using ih
    · have h1 : (if (p.1 == n) = true then (p.1, u) else p) = p := by simp [hpn]
      rw [h1]
      by_cases hpk : p.1 = k
      · simp [hpk]
      · simp only [show (p.1 == k) = false by simp [hpk], Bool.false_eq_true, if_false]
        simpa using ih

/-- Updating a key's entry makes its lookup return the new value when
the key was present, and still nothing when it was absent. -/
theorem usersGet_updateUser_self (store : Users) (n : String) (u : UserState) :
    usersGet (updateUser store n u) n = (usersGet store n).map (fun _ => u) := by
  induction store with
  | nil => rfl
  | cons p rest ih =>
    rw [updateUser, List.map_cons, usersGet_cons, usersGet_cons]
    rw [show updateUser rest n u = rest.map (fun p => if p.1 == n then (p.1, u) else p)
      from rfl] at ih
    by_cases hpn : p.1 = n
    · simp [hpn]
    · have h1 : (if (p.1 == n) = true then (p.1, u) else p) = p := by simp [hpn]
      rw [h1]
      simp only [show (p.1 == n) = false by simp [hpn], Bool.false_eq_true, if_false]
      simpa using ih

/-- Updating an entry never changes which keys are present. -/
theorem usersGet_updateUser_none_iff (store : Users) (n k : String) (u : UserState) :
    usersGet (updateUser store n u) k = none ↔ usersGet store k = none := by
  by_cases h : k = n
  · subst h
    rw [usersGet_updateUser_self]
    cases usersGet store k <;> simp
  · rw [usersGet_updateUser_ne store n k u h]

/-- A successful lookup means the key occurs in the users dict. -/
theorem mem_keys_of_usersGet {store : Users} {k : String} {u : UserState}
    (h : usersGet store k = some u) : k ∈ store.map (fun p => p.1) := by
  rw [usersGet] at h
  cases hf : store.find? (fun p => p.1 == k) with
  | none => rw [hf] at h; cases h
  | some p =>
    have hmem := List.mem_of_find?_eq_some hf
    have hpk : p.1 = k := by
      have := List.find?_some hf
      simpa using this
    exact List.mem_map.mpr ⟨p, hmem, hpk⟩

/-- During the reference-resolution pass, a user that declares no
reference of its own is never modified. -/
theorem resolveReferences_preserves_noref (names : List String) :
    ∀ (store store' : Users) (rn : String) (R : UserState),
      resolveReferences names store = .ok store' →
      usersGet store rn = some R → R.reference = "" →
      usersGet store' rn = some R := by
  induction names with
  | nil =>
    intro store store' rn R h hget _
    cases h
    exact hget
  | cons n rest ih =>
    intro store store' rn R h hget href
    rw [resolveReferences] at h
    cases hn : usersGet store n with
    | none =>
      simp only [hn] at h
      exact ih _ _ _ _ h hget href
    | some user =>
      simp only [hn] at h
      by_cases hur : user.reference == ""
      · rw [if_pos hur] at h
        exact ih _ _ _ _ h hget href
      · rw [if_neg hur] at h
        cases hr : usersGet store user.reference with
        | none => rw [hr] at h; simp at h
        | some refUser =>
          simp only [hr] at h
          refine ih _ _ _ _ h ?_ href
          by_cases hrn : rn = n
          · exfalso
            rw [hrn, hn] at hget
            have he : user = R := Option.some.inj hget
            rw [he, href] at hur
            exact hur rfl
          · rw [usersGet_updateUser_ne _ _ _ _ hrn]
            exact hget

/-- The reference-resolution pass only modifies entries whose name it
iterates over. -/
theorem resolveReferences_untouched (names : List String) :
    ∀ (store store' : Users) (k : String),
      resolveReferences names store = .ok store' → ¬ k ∈ names →
      usersGet store' k = usersGet store k := by
  induction names with
  | nil =>
    intro store store' k h _
    cases h
    rfl
  | cons n rest ih =>
    intro store store' k h hk
    have hkn : k ≠ n := fun he => hk (he ▸ List.mem_cons_self n rest)
    have hkrest : ¬ k ∈ rest := fun hm => hk (List.mem_cons_of_mem n hm)
    rw [resolveReferences] at h
    cases hn : usersGet store n with
    | none =>
      simp only [hn] at h
      exact ih _ _ _ h hkrest
    | some user =>
      simp only [hn] at h
      by_cases hur : user.reference == ""
      · rw [if_pos hur] at h
        exact ih _ _ _ h hkrest
      · rw [if_neg hur] at h
        cases hr : usersGet store user.reference with
        | none => rw [hr] at h; simp at h
        | some refUser =>
          simp only [hr] at h
          rw [ih _ _ _ h hkrest]
          exact usersGet_updateUser_ne _ _ _ _ hkn

/-- Core of the reference-resolution pass: a tenant `tn` whose
reference names a tenant `rn` that itself declares no reference ends up
with exactly one application of `applyReference` from `rn`'s (never
modified) state. -/
theorem resolveReferences_applies (names : List String) :
    ∀ (store store' : Users) (tn rn : String) (T R : UserState),
      names.Nodup →
      resolveReferences names store = .ok store' →
      tn ∈ names →
      usersGet store tn = some T →
      T.reference = rn → rn ≠ "" →
      usersGet store rn = some R → R.reference = "" →
      usersGet store' tn = some (applyReference T R)
        ∧ usersGet store' rn = some R := by
  induction names with
  | nil =>
    intro _ _ _ _ _ _ _ _ htn
    cases htn
  | cons n rest ih =>
    intro store store' tn rn T R hnd h htn hT htr hrne hR hrr
    have htnrn : tn ≠ rn := by
      intro he
      rw [he] at hT
      rw [hT] at hR
      have heq : T = R := Option.some.inj hR
      rw [heq, hrr] at htr
      exact hrne htr.symm
    rw [resolveReferences] at h
    rcases List.mem_cons.mp htn with he | hmem
    · subst he
      simp only [hT] at h
      have hbeq : (T.reference == "") = false := by
        rw [htr]
        simp [hrne]
      rw [if_neg (by simp [hbeq])] at h
      simp only [htr, hR] at h
      have htn_not : ¬ tn ∈ rest := (List.nodup_cons.mp hnd).1
      constructor
      · rw [resolveReferences_untouched rest _ _ _ h htn_not]
        rw [usersGet_updateUser_self, hT]
        rfl
      · refine resolveReferences_preserves_noref rest _ _ _ _ h ?_ hrr
        rw [usersGet_updateUser_ne _ _ _ _ (fun he => htnrn he.symm)]
        exact hR
    · have hne : tn ≠ n := by
        intro he
        exact (List.nodup_cons.mp hnd).1 (he ▸ hmem)
      cases hn : usersGet store n with
      | none =>
        simp only [hn] at h
        exact ih _ _ _ _ _ _ (List.nodup_cons.mp hnd).2 h hmem hT htr hrne hR hrr
      | some user =>
        simp only [hn] at h
        by_cases hur : user.reference == ""
        · rw [if_pos hur] at h
          exact ih _ _ _ _ _ _ (List.nodup_cons.mp hnd).2 h hmem hT htr hrne hR hrr
        · rw [if_neg hur] at h
          cases hr : usersGet store user.reference with
          | none => rw [hr] at h; simp at h
          | some refUser =>
            simp only [hr] at h
            have hnrn : n ≠ rn := by
              intro he
              rw [he, hR] at hn
              have heq : R = user := Option.some.inj hn
              rw [← heq, hrr] at hur
              exact hur rfl
            refine ih _ _ _ _ _ _ (List.nodup_cons.mp hnd).2 h hmem ?_ htr hrne ?_ hrr
            · rw [usersGet_updateUser_ne _ _ _ _ hne]
              exact hT
            · rw [usersGet_updateUser_ne _ _ _ _ (fun he => hnrn he.symm)]
              exact hR

/-- C3 (amended): after resolution, a tenant T whose reference names a
tenant R that itself declares no reference gets, for each
service-family block present on both sides, R's override maps copied
wholesale into each map T left empty, while any map T declared stays
exactly as declared; R's own entry is unchanged, so T's copied map
equals R's resolved map.  (When R declares its own reference, the copy
is taken from whatever R's entry holds at the moment T is processed in
document order, which need not equal R's resolved map — see the
counterexample.) -/
theorem claim_C3_reference_inheritance (store store' : Users) (tn rn : String)
    (T R : UserState) (tsvc rsvc : ServiceConfig)
    (hnd : (store.map (fun p => p.1)).Nodup)
    (hok : resolveStatePass store = .ok store')
    (hT : usersGet store tn = some T) (htr : T.reference = rn) (hrne : rn ≠ "")
    (hR : usersGet store rn = some R) (hrr : R.reference = "")
    (htsvc : T.radarr = some tsvc) (hrsvc : R.radarr = some rsvc) :
    ∃ T', usersGet store' tn = some T' ∧ usersGet store' rn = some R
      ∧ (tsvc.naming = [] → T'.radarr.map ServiceConfig.naming = some rsvc.naming)
      ∧ (tsvc.naming ≠ [] → T'.radarr.map ServiceConfig.naming = some tsvc.naming)
      ∧ (tsvc.media_management = [] →
          T'.radarr.map ServiceConfig.media_management = some rsvc.media_management)
      ∧ (tsvc.media_management ≠ [] →
          T'.radarr.map ServiceConfig.media_management = some tsvc.media_management) := by
  have htnmem : tn ∈ store.map (fun p => p.1) := mem_keys_of_usersGet hT
  rw [resolveStatePass] at hok
  obtain ⟨hT', hR'⟩ := resolveReferences_applies (store.map (fun p => p.1))
    store store' tn rn T R hnd hok htnmem hT htr hrne hR hrr
  refine ⟨applyReference T R, hT', hR', ?_, ?_, ?_, ?_⟩
  · intro hempty
    simp [applyReference, applyReferenceSvc, htsvc, hrsvc, hempty]
  · intro hne
    simp [applyReference, applyReferenceSvc, htsvc, hrsvc,
      (by simpa using hne : ¬ tsvc.naming.isEmpty = true)]
  · intro hempty
    simp [applyReference, applyReferenceSvc, htsvc, hrsvc, hempty]
  · intro hne
    simp [applyReference, applyReferenceSvc, htsvc, hrsvc,
      (by simpa using hne : ¬ tsvc.media_management.isEmpty = true)]

/-- Chain counterexample store: `t` references `r`, `r` references
`s`, only `s` declares a naming override. -/
def c3t : UserState :=
  { name := "t", radarr := some { url := "u", api_key := "k" }, reference := "r" }

/-- Middle tenant of the chain: declares no naming override itself. -/
def c3r : UserState :=
  { name := "r", radarr := some { url := "u", api_key := "k" }, reference := "s" }

/-- Root tenant of the chain: the only one with a naming override. -/
def c3s : UserState :=
  { name := "s",
    radarr := some { url := "u", api_key := "k", naming := [("x", Val.s "1")] },
    reference := "" }

/-- The chain store in document order t, r, s. -/
def c3ChainStore : Users := [("t", c3t), ("r", c3r), ("s", c3s)]

/-- `r` after resolution: it received `s`'s naming map. -/
def c3rFinal : UserState :=
  { name := "r",
    radarr := some { url := "u", api_key := "k", naming := [("x", Val.s "1")] },
    reference := "s" }

/-- The chain store after resolution: `t` is processed before `r`, so
it copied `r`'s then-empty naming map and stays empty. -/
def c3ChainResolved : Users := [("t", c3t), ("r", c3rFinal), ("s", c3s)]

/-- C3 counterexample: tenant `t` references `r`, both have a Radarr
block, and `t` declares no naming overrides, yet after resolution `t`'s
naming map (empty) differs from `r`'s resolved naming map (copied from
`s`): the copy is one-hop and order-dependent, so "T's resolved map
equals R's resolved map" fails when R has its own reference. -/
theorem claim_C3_counterexample :
    resolveStatePass c3ChainStore = .ok c3ChainResolved
    ∧ c3t.reference = "r"
    ∧ c3t.radarr.map ServiceConfig.naming = some []
    ∧ usersGet c3ChainResolved "t" = some c3t
    ∧ usersGet c3ChainResolved "r" = some c3rFinal
    ∧ c3t.radarr.map ServiceConfig.naming ≠ c3rFinal.radarr.map ServiceConfig.naming := by
  refine ⟨by rfl, by decide, by decide, by decide, by decide, by decide⟩

/-- Witness store: `t` references `r`; `r` declares no reference. -/
def c3wStore : Users :=
  [("t", UserState.mk "t" none (some (ServiceConfig.mk "u" "k" "" [] [] [])) none "" false "r"),
   ("r", UserState.mk "r" none
     (some (ServiceConfig.mk "u2" "k2" "" [] [("x", Val.s "1")] [])) none "" false "")]

/-- Witness store after resolution: `t` received `r`'s naming map. -/
def c3wResolved : Users :=
  [("t", UserState.mk "t" none
     (some (ServiceConfig.mk "u" "k" "" [] [("x", Val.s "1")] [])) none "" false "r"),
   ("r", UserState.mk "r" none
     (some (ServiceConfig.mk "u2" "k2" "" [] [("x", Val.s "1")] [])) none "" false "")]

/-- C3 witness: the amended theorem applied to the two-tenant store. -/
theorem claim_C3_reference_inheritance_witness :
    ∃ T', usersGet c3wResolved "t" = some T'
      ∧ usersGet c3wResolved "r"
          = some (UserState.mk "r" none
              (some (ServiceConfig.mk "u2" "k2" "" [] [("x", Val.s "1")] [])) none "" false "")
      ∧ (([] : Dict) = [] →
          T'.radarr.map ServiceConfig.naming = some [("x", Val.s "1")])
      ∧ (([] : Dict) ≠ [] →
          T'.radarr.map ServiceConfig.naming = some [])
      ∧ (([] : Dict) = [] →
          T'.radarr.map ServiceConfig.media_management = some [])
      ∧ (([] : Dict) ≠ [] →
          T'.radarr.map ServiceConfig.media_management = some []) :=
  claim_C3_reference_inheritance c3wStore c3wResolved "t" "r"
    (UserState.mk "t" none (some (ServiceConfig.mk "u" "k" "" [] [] [])) none "" false "r")
    (UserState.mk "r" none
      (some (ServiceConfig.mk "u2" "k2" "" [] [("x", Val.s "1")] [])) none "" false "")
    (ServiceConfig.mk "u" "k" "" [] [] [])
    (ServiceConfig.mk "u2" "k2" "" [] [("x", Val.s "1")] [])
    (by decide) (by rfl) (by decide) rfl (by decide) (by decide) rfl rfl rfl

/-- During the resolution pass a dangling reference is reported as an
error as soon as the declaring tenant's step runs; no step removes a
dangling witness, so the pass can never return `ok`. -/
theorem resolveReferences_error_of_dangling (names : List String) :
    ∀ store : Users,
      (∃ n ∈ names, ∃ u, usersGet store n = some u ∧ u.reference ≠ ""
        ∧ usersGet store u.reference = none) →
      ∃ msg, resolveReferences names store = .error msg := by
  induction names with
  | nil =>
    rintro store ⟨n, hn, _⟩
    cases hn
  | cons n₀ rest ih =>
    rintro store ⟨n, hn, u, hu, hur, hdang⟩
    rw [resolveReferences]
    cases hn₀ : usersGet store n₀ with
    | none =>
      simp only [hn₀]
      have hne : n ≠ n₀ := fun he => by rw [he, hn₀] at hu; cases hu
      have hmem : n ∈ rest := by
        rcases List.mem_cons.mp hn with he | hm
        · exact absurd he hne
        · exact hm
      exact ih store ⟨n, hmem, u, hu, hur, hdang⟩
    | some user =>
      simp only [hn₀]
      by_cases hur₀ : user.reference == ""
      · rw [if_pos hur₀]
        have hne : n ≠ n₀ := by
          intro he
          rw [he, hn₀] at hu
          have heq : user = u := Option.some.inj hu
          rw [heq] at hur₀
          exact hur (by simpa using hur₀)
        have hmem : n ∈ rest := by
          rcases List.mem_cons.mp hn with he | hm
          · exact absurd he hne
          · exact hm
        exact ih store ⟨n, hmem, u, hu, hur, hdang⟩
      · rw [if_neg hur₀]
        cases hd : usersGet store user.reference with
        | none =>
          simp only [hd]
          exact ⟨_, rfl⟩
        | some refUser =>
          simp only [hd]
          have hne : n ≠ n₀ := by
            intro he
            rw [he, hn₀] at hu
            have heq : user = u := Option.some.inj hu
            rw [heq] at hd
            rw [hd] at hdang
            cases hdang
          have hmem : n ∈ rest := by
            rcases List.mem_cons.mp hn with he | hm
            · exact absurd he hne
            · exact hm
          apply ih
          refine ⟨n, hmem, u, ?_, hur, ?_⟩
          · rw [usersGet_updateUser_ne _ _ _ _ hne]
            exact hu
          · rw [(usersGet_updateUser_none_iff _ _ _ _)]
            exact hdang

/-- C9: config resolution fails with a configuration error whenever a
tenant's reference names a tenant absent from the document.  The whole
pass is a pure function of the parsed document — its signature involves
no live-service data — so the error precedes any service call. -/
theorem claim_C9_dangling_reference (store : Users) (n : String) (u : UserState)
    (hget : usersGet store n = some u) (hne : u.reference ≠ "")
    (hdang : usersGet store u.reference = none) :
    ∃ msg, resolveStatePass store = .error msg := by
  apply resolveReferences_error_of_dangling
  exact ⟨n, mem_keys_of_usersGet hget, u, hget, hne, hdang⟩

/-- C9 witness: a single tenant referencing an undefined tenant makes
resolution fail. -/
theorem claim_C9_dangling_reference_witness :
    ∃ msg, resolveStatePass [("t", { name := "t", reference := "ghost" })]
      = .error msg :=
  claim_C9_dangling_reference [("t", { name := "t", reference := "ghost" })] "t"
    { name := "t", reference := "ghost" } (by decide) (by decide) (by decide)

end ArrSync
